import Mathlib

/-! Setup bootstrap (`src/Setup/Setup.cpp`).

A shallow embedding of the self-extracting installer bootstrap: the string test
`hasEnding`, the archive scan `unzipSingleFile`, and the top-level pipeline
`wWinMain` with its error dialogs and clean-up phase.

Conventions of the embedding:

* a `std::wstring` is a list of characters;
* code outside `Setup.cpp` (the zip library, `util::*`, `bundle_marker_t`, the
  Win32 calls) is not interpreted: what each call returns is a field of an
  environment record, and every call the program makes is appended to a trace;
* a C++ `throw` is a value of `Thrown`, carried in `Except`;
* a run has the result `none` when the source gives it no defined result: it
  hands the zip library or the file write a byte range that is not inside the
  memory mapping.
-/

namespace Setup

/-! ## Strings -/

/-- A `std::wstring`: a finite sequence of wide characters. -/
abbrev wstring := List Char

/-- The three-way comparison of two character sequences that
`std::basic_string::compare` performs: the first differing character decides,
otherwise the shorter sequence is smaller. -/
def traitsCompare : wstring → wstring → Int
  | [], [] => 0
  | [], _ :: _ => -1
  | _ :: _, [] => 1
  | a :: as, b :: bs =>
    if a.toNat < b.toNat then -1
    else if b.toNat < a.toNat then 1
    else traitsCompare as bs

/-- The call `self.compare(pos, len, str)`: compares the `len` characters of
`self` starting at `pos` (fewer when `self` ends earlier) with `str`.  The
library throws `std::out_of_range` when `pos > self.size()`; `hasEnding` only
calls it with `pos ≤ self.size()`. -/
def wstring_compare (self : wstring) (pos len : Nat) (str : wstring) : Int :=
  traitsCompare ((self.drop pos).take len) str

/-- Source lines 14-20, `hasEnding`. -/
def hasEnding (fullString ending : wstring) : Bool :=
  if fullString.length ≥ ending.length then
    decide (0 = wstring_compare fullString (fullString.length - ending.length)
      ending.length ending)
  else
    false

/-! ## The zip library, as the program observes it -/

/-- An unsigned byte (`BYTE`, `uint8_t`). -/
abbrev BYTE := UInt8

/-- Modelled from the spec: `unzip.h` is not part of the sources.  A `ZRESULT`
is the status code of a zip call; the program only tells `ZR_OK` and `ZR_MORE`
("more entries remain") apart from every other code. -/
inductive ZRESULT
  | ZR_OK
  | ZR_MORE
  | ZR_FAILED (code : Nat)
  deriving DecidableEq

/-- Modelled from the spec: `unzip.h` is not part of the sources.  The metadata
record `GetZipItem` fills in; the program reads its `name`. -/
structure ZIPENTRY where
  index : Nat
  name : wstring
  deriving DecidableEq

/-- One slot of an opened archive, with what the library answers for it in
this run: `zr` is the result of `GetZipItem` (which fills in `zentry`),
`content` the decompressed bytes of the entry, `unzip` the result of
`UnzipItem`, and `leftover` what a failed `UnzipItem` leaves in the
destination file (`none`: it leaves the file system as it was). -/
structure ZipItem where
  zr : ZRESULT
  zentry : ZIPENTRY
  content : List BYTE
  unzip : ZRESULT
  leftover : Option (List BYTE)

/-- Modelled from the spec: `unzip.h` is not part of the sources.  An archive
handle is the finite sequence of its slots, in archive order. -/
structure HZIP where
  items : List ZipItem

/-! ## The world outside the program -/

/-- The files on disk: the bytes stored under each path. -/
abbrev Files := wstring → Option (List BYTE)

/-- Create or replace the file at `path`. -/
def writeFile (fs : Files) (path : wstring) (bytes : List BYTE) : Files :=
  fun q => if q = path then some bytes else fs q

/-- Remove the file at `path`. -/
def removeFile (fs : Files) (path : wstring) : Files :=
  fun q => if q = path then none else fs q

/-- The calls the program makes to code outside `Setup.cpp`, with the
arguments the claims speak about. -/
inductive Call
  | IsWindows7SP1OrGreater
  | show_error_dialog (msg : wstring)
  | get_temp_file_path (ext : wstring)
  | get_current_process_path
  | mmap_read
  | header_offset
  | OpenZip (zipBuf : List BYTE)
  | GetZipItem (index : Nat)
  | UnzipItem (index : Nat) (fileLocation : wstring)
  | CloseZip
  | ofstream_write (path : wstring) (bytes : List BYTE)
  | wexec (cmd : wstring)
  | munmap
  | DeleteFile (path : wstring)
  deriving DecidableEq

/-- The observable state: the files on disk and the calls made so far, oldest
first. -/
structure World where
  files : Files
  trace : List Call

/-- Record a call. -/
def World.call (w : World) (c : Call) : World :=
  { w with trace := w.trace ++ [c] }

/-- What a C++ `throw` raised: a `wstring` by value, a pointer to a `wstring`
(`throw new wstring(...)`), an object derived from `std::exception` (with the
text `what()` gives on the caught copy), or anything else. -/
inductive Thrown
  | wstring_value (wsx : wstring)
  | wstring_pointer (target : wstring)
  | std_exception (what : List Char)
  | other
  deriving DecidableEq

/-- The state of a `std::ofstream` after construction and `write`: the stream
never throws (its exception mask is the default), it only records failure. -/
inductive StreamState
  | good
  | open_failed
  | write_failed (written : Nat)
  deriving DecidableEq

/-- What the collaborators answer in one run of the program. -/
structure Env where
  /-- result of `IsWindows7SP1OrGreater()` -/
  IsWindows7SP1OrGreater : Bool
  /-- result of `util::get_temp_file_path(ext)` -/
  get_temp_file_path : wstring → wstring
  /-- result of `util::mmap_read`: the bytes of the executable, `none` for a
  null pointer -/
  mmap_read : Option (List BYTE)
  /-- the pair `bundle_marker_t::header_offset` stores: offset and length,
  both `int64_t` -/
  header_offset : Int × Int
  /-- the archive `OpenZip` finds in a buffer -/
  OpenZip : List BYTE → HZIP
  /-- how the `std::ofstream` of the package file fares -/
  ofstream : StreamState
  /-- how `util::wexec` ends: `none` when it returns, `some t` when it throws
  `t` -/
  wexec : Option Thrown
  /-- whether `DeleteFile(path)` succeeds -/
  DeleteFile : wstring → Bool
  /-- the command-line argument string of this process -/
  pCmdLine : wstring
  /-- the files on disk when the process starts -/
  files : Files

/-- Modelled from the spec: `unzip.h` is not part of the sources.
`GetZipItem(zipFile, index, &zentry)` answers with the slot at `index`; past
the last slot it reports an error and leaves `zentry` unset (shown here as an
entry with an empty name, which the program never reads). -/
def GetZipItem (zipFile : HZIP) (index : Nat) : ZRESULT × ZIPENTRY :=
  match zipFile.items[index]? with
  | some item => (item.zr, item.zentry)
  | none => (ZRESULT.ZR_FAILED 0x10000, ⟨index, []⟩)

/-- Modelled from the spec: `unzip.h` is not part of the sources.
`UnzipItem(zipFile, index, fileLocation)`: when it returns `ZR_OK` the
destination file holds the decompressed content of the entry. -/
def UnzipItem (zipFile : HZIP) (index : Nat) (fileLocation : wstring) (w : World) :
    ZRESULT × World :=
  let w := w.call (Call.UnzipItem index fileLocation)
  match zipFile.items[index]? with
  | none => (ZRESULT.ZR_FAILED 0x10000, w)
  | some item =>
    if item.unzip = ZRESULT.ZR_OK then
      (ZRESULT.ZR_OK, { w with files := writeFile w.files fileLocation item.content })
    else
      match item.leftover with
      | none => (item.unzip, w)
      | some bytes => (item.unzip, { w with files := writeFile w.files fileLocation bytes })

/-! ## `unzipSingleFile` -/

/-- Source lines 30-46, the `do ... while` loop of `unzipSingleFile`, started
at `index` with `unzipSuccess = false`; the result is the final value of
`unzipSuccess`.  Each unit of `fuel` pays for one pass through the body;
`none` means the fuel ran out.  The `int index` only counts up to the number
of slots of the archive, which is taken to fit in an `int`. -/
def scanLoop (zipFile : HZIP) (fileLocation : wstring) (predicate : ZIPENTRY → Bool) :
    Nat → Nat → World → Option (Bool × World)
  | 0, _, _ => none
  | fuel + 1, index, w =>
    -- zr = GetZipItem(zipFile, index, &zentry);
    let zr := (GetZipItem zipFile index).1
    let zentry := (GetZipItem zipFile index).2
    let w := w.call (Call.GetZipItem index)
    if zr ≠ ZRESULT.ZR_OK ∧ zr ≠ ZRESULT.ZR_MORE then
      some (false, w)
    else if predicate zentry then
      let zaunz := (UnzipItem zipFile index fileLocation w).1
      let w := (UnzipItem zipFile index fileLocation w).2
      if zaunz = ZRESULT.ZR_OK then some (true, w) else some (false, w)
    else if zr = ZRESULT.ZR_MORE ∨ zr = ZRESULT.ZR_OK then
      scanLoop zipFile fileLocation predicate fuel (index + 1) w
    else
      some (false, w)

/-- The message `unzipSingleFile` throws. -/
def extractionError : wstring :=
  "Unable to extract embedded package (predicate not found).".toList

/-- Source lines 22-51, `unzipSingleFile`.  `zipBuf` stands for the `cZipBuf`
bytes at the pointer `zipBuf`.  The loop gets one pass per slot of the archive
and one more for the call that reports the end; `scanLoop_some` shows that it
never needs more, so the result is never `none`. -/
def unzipSingleFile (OpenZip : List BYTE → HZIP) (zipBuf : List BYTE) (fileLocation : wstring)
    (predicate : ZIPENTRY → Bool) (w : World) : Option (Except Thrown Unit × World) :=
  let zipFile := OpenZip zipBuf
  let w := w.call (Call.OpenZip zipBuf)
  match scanLoop zipFile fileLocation predicate (zipFile.items.length + 1) 0 w with
  | none => none
  | some (unzipSuccess, w) =>
    let w := w.call Call.CloseZip
    if !unzipSuccess then
      some (Except.error (Thrown.wstring_value extractionError), w)
    else
      some (Except.ok (), w)

/-! ## `wWinMain` -/

/-- Modelled from the spec: the memory mapping belongs to `platform_util.h`,
which is not part of the sources.  The `count` bytes at `memAddr + offset` all
lie inside the mapping of `image`.  The source never checks this (lines 73, 82
and 85 pass the pointer and the length on as the marker gives them); outside
this range it reads memory that is not the image, which is undefined. -/
abbrev InImage (image : List BYTE) (offset count : Int) : Prop :=
  0 ≤ offset ∧ 0 ≤ count ∧ offset + count ≤ image.length

/-- Modelled from the spec: the memory mapping belongs to `platform_util.h`,
which is not part of the sources.  The `count` bytes of `image` from `offset`
on: what a reader finds at `memAddr + offset` when `InImage image offset count`
holds.  `tryBlock` evaluates it only under that condition. -/
def bytesAt (image : List BYTE) (offset count : Int) : List BYTE :=
  (image.take (offset + count).toNat).drop offset.toNat

/-- The `std::ofstream(path, std::ios::binary).write(bytes)` of source line 85.
Opening truncates or creates the file; a failure is only recorded in the
stream, which the program drops without looking at it. -/
def ofstream_write (outcome : StreamState) (path : wstring) (bytes : List BYTE) (w : World) :
    World :=
  let w := w.call (Call.ofstream_write path bytes)
  match outcome with
  | StreamState.good => { w with files := writeFile w.files path bytes }
  | StreamState.open_failed => w
  | StreamState.write_failed written =>
    { w with files := writeFile w.files path (bytes.take written) }

/-- The call `DeleteFile(path)`; the program ignores the result. -/
def DeleteFile (env : Env) (path : wstring) (w : World) : World :=
  let w := w.call (Call.DeleteFile path)
  if env.DeleteFile path then { w with files := removeFile w.files path } else w

/-- Source line 56, the text of the dialog for an old Windows. -/
def unsupportedMessage : wstring :=
  "This application requires Windows 7 SP1 or later and cannot be installed on this computer.".toList

/-- Source line 68. -/
def mapError : wstring := "Unable to map executable to memory".toList

/-- Source line 75. -/
def notFoundError : wstring := "The embedded package was not found".toList

/-- Source lines 92 and 99, the text before the message of the failure. -/
def errorLead : wstring := "An error occurred while running setup. ".toList

/-- Source lines 92 and 99, the text after the message of the failure. -/
def errorTrail : wstring := ". Please contact the application author.".toList

/-- Source line 102. -/
def unknownError : wstring :=
  "An unknown error occurred while running setup. Please contact the application author.".toList

/-- Source lines 79-81, the predicate `endsWithSquirrel`. -/
def endsWithSquirrel (z : ZIPENTRY) : Bool :=
  hasEnding z.name "Squirrel.exe".toList

/-- Source line 88, the command line handed to `util::wexec`. -/
def commandLine (updaterPath packagePath pCmdLine : wstring) : wstring :=
  "\"".toList ++ updaterPath ++ "\" --setup \"".toList ++ packagePath ++ "\" ".toList ++ pCmdLine

/-- How the `try` block ended: what was thrown (if anything), the value of
`memAddr` (`none` for the null pointer), and the world at that point. -/
structure TryResult where
  thrown : Option Thrown
  memAddr : Option (List BYTE)
  world : World

/-- Source lines 64-90, the body of the `try` block.  The result is `none` when
the source gives the run no defined result: the range handed to `OpenZip`
(line 82) or to `write` (line 85) is not inside the mapping, so the program
reads memory that is not the image.  (`none` from `unzipSingleFile` would mean
that the scan ran out of fuel, which `scanLoop_some` excludes.) -/
def tryBlock (env : Env) (updaterPath packagePath : wstring) (w : World) : Option TryResult :=
  -- memAddr = util::mmap_read(util::get_current_process_path(), 0);
  let w := (w.call Call.get_current_process_path).call Call.mmap_read
  match env.mmap_read with
  | none =>
    -- throw new wstring(L"Unable to map executable to memory");
    some ⟨some (Thrown.wstring_pointer mapError), none, w⟩
  | some image =>
    let packageOffset := env.header_offset.1
    let packageLength := env.header_offset.2
    let w := w.call Call.header_offset
    if packageOffset = 0 ∨ packageLength = 0 then
      some ⟨some (Thrown.wstring_value notFoundError), some image, w⟩
    -- the `int64_t` length is narrowed to the `DWORD` parameter `cZipBuf`
    else if ¬ InImage image packageOffset (packageLength % 2 ^ 32) then
      none
    else
      let zipBuf := bytesAt image packageOffset (packageLength % 2 ^ 32)
      match unzipSingleFile env.OpenZip zipBuf updaterPath endsWithSquirrel w with
      | none => none
      | some (Except.error t, w) => some ⟨some t, some image, w⟩
      | some (Except.ok (), w) =>
        if ¬ InImage image packageOffset packageLength then
          none
        else
          let w := ofstream_write env.ofstream packagePath
            (bytesAt image packageOffset packageLength) w
          let cmd := commandLine updaterPath packagePath env.pCmdLine
          let w := w.call (Call.wexec cmd)
          match env.wexec with
          | some t => some ⟨some t, some image, w⟩
          | none => some ⟨none, some image, w⟩

/-- Source lines 91-103, the `catch` clauses: which dialog each thrown value
gets. -/
def catchClauses (t : Thrown) (w : World) : World :=
  match t with
  | Thrown.wstring_value wsx =>
    w.call (Call.show_error_dialog (errorLead ++ wsx ++ errorTrail))
  | Thrown.std_exception what =>
    w.call (Call.show_error_dialog (errorLead ++ what ++ errorTrail))
  | _ =>
    w.call (Call.show_error_dialog unknownError)

/-- Source lines 105-108, the clean-up. -/
def cleanup (env : Env) (memAddr : Option (List BYTE)) (updaterPath packagePath : wstring)
    (w : World) : World :=
  let w := if memAddr.isSome then w.call Call.munmap else w
  let w := DeleteFile env updaterPath w
  DeleteFile env packagePath w

/-- Source lines 53-110, `wWinMain`: the return value and the world it
leaves; `none` when the `try` block has no defined result. -/
def wWinMain (env : Env) : Option (Int × World) :=
  let w : World := ⟨env.files, []⟩
  let w := w.call Call.IsWindows7SP1OrGreater
  if !env.IsWindows7SP1OrGreater then
    some (0, w.call (Call.show_error_dialog unsupportedMessage))
  else
    let updaterPath := env.get_temp_file_path "exe".toList
    let w := w.call (Call.get_temp_file_path "exe".toList)
    let packagePath := env.get_temp_file_path "nupkg".toList
    let w := w.call (Call.get_temp_file_path "nupkg".toList)
    match tryBlock env updaterPath packagePath w with
    | none => none
    | some r =>
      let w := match r.thrown with
        | some t => catchClauses t r.world
        | none => r.world
      some (0, cleanup env r.memAddr updaterPath packagePath w)

/-! ## Vocabulary of the statements -/

/-- The scan looks at the entry at `index`: `GetZipItem` answers `ZR_OK` or
`ZR_MORE` for it. -/
def Enumerated (zipFile : HZIP) (index : Nat) : Prop :=
  (GetZipItem zipFile index).1 = ZRESULT.ZR_OK ∨ (GetZipItem zipFile index).1 = ZRESULT.ZR_MORE

/-- The calls `GetZipItem(first)`, ..., `GetZipItem(last)`, in ascending
order. -/
def enumCalls (first last : Nat) : List Call :=
  (List.range' first (last + 1 - first)).map Call.GetZipItem

/-- Entry `k` is the first one the scan finds to satisfy the predicate: every
index up to `k` is enumerated, `k` satisfies the predicate and no smaller index
does. -/
def FirstMatch (zipFile : HZIP) (predicate : ZIPENTRY → Bool) (k : Nat) : Prop :=
  (∀ j, j ≤ k → Enumerated zipFile j) ∧
  predicate (GetZipItem zipFile k).2 = true ∧
  ∀ j, j < k → predicate (GetZipItem zipFile j).2 = false

/-- The code `UnzipItem` returns for the entry at `k`. -/
def unzipCode (zipFile : HZIP) (k : Nat) : ZRESULT :=
  match zipFile.items[k]? with
  | some item => item.unzip
  | none => ZRESULT.ZR_FAILED 0x10000

/-- The call of `UnzipItem` for the entry at `k` returns `ZR_OK`. -/
abbrev ExtractionOk (zipFile : HZIP) (k : Nat) : Prop :=
  unzipCode zipFile k = ZRESULT.ZR_OK

/-- The marker of a run obeys the data model: when the image is mapped and both
fields are non-zero, the range they describe lies inside the image. -/
def MarkerInRange (env : Env) : Prop :=
  ∀ image, env.mmap_read = some image →
    env.header_offset.1 = 0 ∨ env.header_offset.2 = 0 ∨
      InImage image env.header_offset.1 env.header_offset.2

/-- The installer path of a run: the local `updaterPath` of `wWinMain`. -/
def updaterPath (env : Env) : wstring := env.get_temp_file_path "exe".toList

/-- The package path of a run: the local `packagePath` of `wWinMain`. -/
def packagePath (env : Env) : wstring := env.get_temp_file_path "nupkg".toList

/-- The world in which `wWinMain` enters its `try` block, once the version
check has passed and both temporary paths are chosen. -/
def entryWorld (env : Env) : World :=
  ⟨env.files, [Call.IsWindows7SP1OrGreater, Call.get_temp_file_path "exe".toList,
    Call.get_temp_file_path "nupkg".toList]⟩

/-- The double quote character. -/
def dquote : Char := Char.ofNat 34

/-- The calls of the clean-up phase of a run. -/
def cleanupCalls (env : Env) : List Call :=
  (if env.mmap_read.isSome then [Call.munmap] else []) ++
    [Call.DeleteFile (updaterPath env), Call.DeleteFile (packagePath env)]

/-- The text of the dialog the `catch` clauses show for a thrown value. -/
def dialogText : Thrown → wstring
  | Thrown.wstring_value wsx => errorLead ++ wsx ++ errorTrail
  | Thrown.std_exception what => errorLead ++ what ++ errorTrail
  | _ => unknownError

/-- The dialogs a run shows once its `try` block has ended. -/
def dialogCalls : Option Thrown → List Call
  | none => []
  | some t => [Call.show_error_dialog (dialogText t)]

/-- A call to the zip library. -/
def Call.isZip : Call → Bool
  | Call.OpenZip _ => true
  | Call.GetZipItem _ => true
  | Call.UnzipItem _ _ => true
  | Call.CloseZip => true
  | _ => false

/-- A call to `UnzipItem`. -/
def Call.isUnzipItem : Call → Bool
  | Call.UnzipItem _ _ => true
  | _ => false

/-- A write of the package file. -/
def Call.isFileWrite : Call → Bool
  | Call.ofstream_write _ _ => true
  | _ => false

/-- A call to `util::wexec`. -/
def Call.isLaunch : Call → Bool
  | Call.wexec _ => true
  | _ => false

/-- A call to `util::show_error_dialog`. -/
def Call.isDialog : Call → Bool
  | Call.show_error_dialog _ => true
  | _ => false

/-- A call to `util::munmap`. -/
def Call.isMunmap : Call → Bool
  | Call.munmap => true
  | _ => false

/-- A call to `DeleteFile`. -/
def Call.isDelete : Call → Bool
  | Call.DeleteFile _ => true
  | _ => false

/-! ## Example inputs -/

/-- The archive entry of the end-to-end scenario: `Foo.Squirrel.exe`, whose
content starts with the bytes `4D 5A`. -/
def fooEntry : ZipItem :=
  ⟨ZRESULT.ZR_OK, ⟨0, "Foo.Squirrel.exe".toList⟩, [0x4D, 0x5A, 0x90, 0x00], ZRESULT.ZR_OK, none⟩

/-- An executable image of eight bytes. -/
def demoImage : List BYTE := [0x4D, 0x5A, 0x00, 0x00, 0x50, 0x4B, 0x05, 0x06]

/-- A run in which every collaborator succeeds: the payload is the last four
bytes of `demoImage` and holds the single entry `fooEntry`. -/
def demoEnv : Env where
  IsWindows7SP1OrGreater := true
  get_temp_file_path := fun ext => "tmp.".toList ++ ext
  mmap_read := some demoImage
  header_offset := (4, 4)
  OpenZip := fun _ => ⟨[fooEntry]⟩
  ofstream := StreamState.good
  wexec := none
  DeleteFile := fun _ => true
  pCmdLine := "--silent".toList
  files := fun _ => none

/-- The end-to-end scenario as the specification words it: the marker says
offset 0 and the length of the whole buffer. -/
def wholeBufferEnv : Env := { demoEnv with header_offset := (0, 8) }

/-- A run in which the package file cannot be opened for writing. -/
def streamFailEnv : Env := { demoEnv with ofstream := StreamState.open_failed }

/-- A run in which `util::mmap_read` returns the null pointer. -/
def mapFailEnv : Env := { demoEnv with mmap_read := none }

/-- A run in which the marker was never filled in. -/
def zeroMarkerEnv : Env := { demoEnv with header_offset := (0, 0) }

/-- A run whose marker points four bytes before the mapping. -/
def strayMarkerEnv : Env := { demoEnv with header_offset := (-4, 4) }

/-- A run in which the archive holds no installer, so the extraction fails. -/
def noInstallerEnv : Env :=
  { demoEnv with OpenZip := fun _ =>
      ⟨[⟨ZRESULT.ZR_OK, ⟨0, "readme.txt".toList⟩, [0x68, 0x69], ZRESULT.ZR_OK, none⟩]⟩ }

/-- The entry `Foo.Squirrel.exe` when its destination cannot be written:
`UnzipItem` fails and creates nothing. -/
def unwritableEntry : ZipItem := { fooEntry with unzip := ZRESULT.ZR_FAILED 0x400 }

/-- The world before anything ran, with an empty disk. -/
def emptyWorld : World := ⟨fun _ => none, []⟩

/-- An archive without any entry that ends in `Squirrel.exe`. -/
def noMatch : HZIP :=
  ⟨[⟨ZRESULT.ZR_OK, ⟨0, "readme.txt".toList⟩, [0x68, 0x69], ZRESULT.ZR_OK, none⟩,
    ⟨ZRESULT.ZR_OK, ⟨1, "setup.exe".toList⟩, [0x4D, 0x5A], ZRESULT.ZR_OK, none⟩]⟩

/-- An archive with one entry before `Foo.Squirrel.exe`. -/
def oneMatch : HZIP :=
  ⟨[⟨ZRESULT.ZR_OK, ⟨0, "readme.txt".toList⟩, [0x68, 0x69], ZRESULT.ZR_OK, none⟩, fooEntry]⟩

/-- An archive in which `GetZipItem` reports an error for the slot before
`Foo.Squirrel.exe`. -/
def unreadableSlot : HZIP :=
  ⟨[⟨ZRESULT.ZR_FAILED 0x700, ⟨0, []⟩, [], ZRESULT.ZR_FAILED 0x700, none⟩, fooEntry]⟩

/-- The result of the run `demoEnv`. -/
def demoRun : Int × World := (wWinMain demoEnv).getD (0, emptyWorld)

/-- The command line of the run `demoEnv`. -/
def demoCmd : wstring := "\"tmp.exe\" --setup \"tmp.nupkg\" --silent".toList

/-! ### Facts about `hasEnding` -/

theorem traitsCompare_eq_zero (a b : wstring) : traitsCompare a b = 0 ↔ a = b := by
  induction a generalizing b with
  | nil => cases b <;> simp [traitsCompare]
  | cons x xs ih =>
    cases b with
    | nil => simp [traitsCompare]
    | cons y ys =>
      simp only [traitsCompare, List.cons.injEq]
      by_cases h1 : x.toNat < y.toNat
      · have hne : x ≠ y := by
          intro h
          subst h
          omega
        simp [h1, hne]
      · by_cases h2 : y.toNat < x.toNat
        · have hne : x ≠ y := by
            intro h
            subst h
            omega
          simp [h1, h2, hne]
        · have hxy : x = y := by
            apply Char.ext
            apply UInt32.ext
            have : x.toNat = y.toNat := by omega
            exact this
          simp [h1, h2, hxy, ih]

theorem hasEnding_eq_true_iff (s e : wstring) :
    hasEnding s e = true ↔ ∃ p : wstring, s = p ++ e := by
  unfold hasEnding wstring_compare
  constructor
  · intro h
    by_cases hl : s.length ≥ e.length
    · simp only [hl, if_true, decide_eq_true_eq] at h
      have h0 := (traitsCompare_eq_zero _ _).mp h.symm
      have hlen : (List.drop (s.length - e.length) s).length = e.length := by
        simp only [List.length_drop]
        omega
      have h1 : List.drop (s.length - e.length) s = e :=
        (List.take_of_length_le (le_of_eq hlen)).symm.trans h0
      refine ⟨s.take (s.length - e.length), ?_⟩
      calc s = s.take (s.length - e.length) ++ s.drop (s.length - e.length) :=
            (List.take_append_drop _ s).symm
        _ = s.take (s.length - e.length) ++ e := by rw [h1]
    · simp [hl] at h
  · rintro ⟨p, rfl⟩
    have : traitsCompare e e = 0 := (traitsCompare_eq_zero e e).mpr rfl
    simp [this]

/-! ### Facts about the archive scan -/

theorem GetZipItem_not_enumerated (zipFile : HZIP) (index : Nat)
    (h : zipFile.items.length ≤ index) : ¬ Enumerated zipFile index := by
  have hn : zipFile.items[index]? = none := List.getElem?_eq_none h
  simp [Enumerated, GetZipItem, hn]

theorem enumerated_iff (zipFile : HZIP) (index : Nat) :
    ¬ Enumerated zipFile index ↔
      ((GetZipItem zipFile index).1 ≠ ZRESULT.ZR_OK ∧ (GetZipItem zipFile index).1 ≠ ZRESULT.ZR_MORE) := by
  unfold Enumerated
  tauto

theorem scanLoop_some (zipFile : HZIP) (dest : wstring) (predicate : ZIPENTRY → Bool) :
    ∀ fuel index w, 0 < fuel → zipFile.items.length + 1 ≤ fuel + index →
      ∃ r, scanLoop zipFile dest predicate fuel index w = some r := by
  intro fuel
  induction fuel with
  | zero =>
    intro index w h0 h
    omega
  | succ n ih =>
    intro index w _ h
    simp only [scanLoop]
    by_cases h1 : (GetZipItem zipFile index).1 ≠ ZRESULT.ZR_OK ∧
        (GetZipItem zipFile index).1 ≠ ZRESULT.ZR_MORE
    · rw [if_pos h1]; exact ⟨_, rfl⟩
    · rw [if_neg h1]
      by_cases h2 : predicate (GetZipItem zipFile index).2 = true
      · rw [if_pos h2]
        split <;> exact ⟨_, rfl⟩
      · rw [if_neg h2]
        have hen : Enumerated zipFile index := by
          by_contra hc
          exact h1 ((enumerated_iff _ _).mp hc)
        have hlt : index < zipFile.items.length := by
          by_contra hc
          exact GetZipItem_not_enumerated zipFile index (by omega) hen
        have h3 : (GetZipItem zipFile index).1 = ZRESULT.ZR_MORE ∨
            (GetZipItem zipFile index).1 = ZRESULT.ZR_OK := hen.symm
        rw [if_pos h3]
        exact ih (index + 1) _ (by omega) (by omega)

theorem enumCalls_self (k : Nat) : enumCalls k k = [Call.GetZipItem k] := by
  simp [enumCalls]

theorem enumCalls_cons (index k : Nat) (h : index + 1 ≤ k) :
    enumCalls index k = Call.GetZipItem index :: enumCalls (index + 1) k := by
  unfold enumCalls
  have : k + 1 - index = (k + 1 - (index + 1)) + 1 := by omega
  rw [this, List.range'_succ]
  simp

theorem scanLoop_spec (zipFile : HZIP) (dest : wstring) (predicate : ZIPENTRY → Bool) :
    ∀ fuel index w b w', scanLoop zipFile dest predicate fuel index w = some (b, w') →
      ∃ k, index ≤ k ∧
        (∀ j, index ≤ j → j < k →
          Enumerated zipFile j ∧ predicate (GetZipItem zipFile j).2 = false) ∧
        ((¬ Enumerated zipFile k ∧ b = false ∧
            w' = ⟨w.files, w.trace ++ enumCalls index k⟩) ∨
         (Enumerated zipFile k ∧ predicate (GetZipItem zipFile k).2 = true ∧
            b = decide ((UnzipItem zipFile k dest
              ⟨w.files, w.trace ++ enumCalls index k⟩).1 = ZRESULT.ZR_OK) ∧
            w' = (UnzipItem zipFile k dest ⟨w.files, w.trace ++ enumCalls index k⟩).2)) := by
  intro fuel
  induction fuel with
  | zero => intro index w b w' h; simp [scanLoop] at h
  | succ n ih =>
    intro index w b w' h
    simp only [scanLoop] at h
    by_cases h1 : (GetZipItem zipFile index).1 ≠ ZRESULT.ZR_OK ∧
        (GetZipItem zipFile index).1 ≠ ZRESULT.ZR_MORE
    · rw [if_pos h1] at h
      simp only [Option.some.injEq, Prod.mk.injEq] at h
      refine ⟨index, le_refl _, ?_, Or.inl ⟨(enumerated_iff _ _).mpr h1, h.1.symm, ?_⟩⟩
      · intro j h1 h2; omega
      · rw [← h.2, enumCalls_self]; rfl
    · rw [if_neg h1] at h
      have hen : Enumerated zipFile index := by
        by_contra hc
        exact h1 ((enumerated_iff _ _).mp hc)
      by_cases h2 : predicate (GetZipItem zipFile index).2 = true
      · rw [if_pos h2] at h
        refine ⟨index, le_refl _, ?_, Or.inr ⟨hen, h2, ?_⟩⟩
        · intro j h1 h2; omega
        · rw [enumCalls_self]
          have hw : (⟨w.files, w.trace ++ [Call.GetZipItem index]⟩ : World)
              = w.call (Call.GetZipItem index) := rfl
          rw [hw]
          split at h <;> simp only [Option.some.injEq, Prod.mk.injEq] at h
          · rename_i hz
            exact ⟨by rw [← h.1]; simp [hz], h.2.symm⟩
          · rename_i hz
            exact ⟨by rw [← h.1]; simp [hz], h.2.symm⟩
      · rw [if_neg h2] at h
        have h3 : (GetZipItem zipFile index).1 = ZRESULT.ZR_MORE ∨
            (GetZipItem zipFile index).1 = ZRESULT.ZR_OK := hen.symm
        rw [if_pos h3] at h
        obtain ⟨k, hk, hbefore, hcase⟩ := ih (index + 1) _ b w' h
        have htr : (w.call (Call.GetZipItem index)).trace ++ enumCalls (index + 1) k
            = w.trace ++ enumCalls index k := by
          rw [enumCalls_cons index k hk]
          simp [World.call]
        have hfs : (w.call (Call.GetZipItem index)).files = w.files := rfl
        rw [htr, hfs] at hcase
        refine ⟨k, by omega, ?_, hcase⟩
        intro j hj1 hj2
        by_cases hji : j = index
        · subst hji
          exact ⟨hen, by simpa using h2⟩
        · exact hbefore j (by omega) hj2

theorem UnzipItem_trace (zipFile : HZIP) (k : Nat) (dest : wstring) (w : World) :
    (UnzipItem zipFile k dest w).2.trace = w.trace ++ [Call.UnzipItem k dest] := by
  unfold UnzipItem
  cases zipFile.items[k]? with
  | none => rfl
  | some item =>
    simp only
    split
    · rfl
    · cases item.leftover <;> rfl

theorem UnzipItem_files_other (zipFile : HZIP) (k : Nat) (dest : wstring) (w : World)
    (q : wstring) (hq : q ≠ dest) : (UnzipItem zipFile k dest w).2.files q = w.files q := by
  unfold UnzipItem
  cases zipFile.items[k]? with
  | none => rfl
  | some item =>
    simp only
    split
    · simp [writeFile, World.call, hq]
    · cases item.leftover <;> simp [writeFile, World.call, hq]

theorem UnzipItem_code (zipFile : HZIP) (k : Nat) (dest : wstring) (w : World) :
    (UnzipItem zipFile k dest w).1 = unzipCode zipFile k := by
  unfold UnzipItem unzipCode
  cases zipFile.items[k]? with
  | none => rfl
  | some item =>
    simp only
    split
    · rename_i h; simp [h]
    · cases item.leftover <;> rfl

theorem UnzipItem_ok_files (zipFile : HZIP) (k : Nat) (dest : wstring) (w : World)
    (item : ZipItem) (hk : zipFile.items[k]? = some item) (hok : item.unzip = ZRESULT.ZR_OK) :
    (UnzipItem zipFile k dest w).2.files dest = some item.content := by
  unfold UnzipItem
  simp [hk, hok, writeFile]

/-- How every call of `unzipSingleFile` ends, in terms of the index `k` at
which the scan stops. -/
theorem unzipSingleFile_spec (OpenZip : List BYTE → HZIP) (zipBuf : List BYTE) (dest : wstring)
    (predicate : ZIPENTRY → Bool) (w : World) :
    ∃ k, (∀ j, j < k → Enumerated (OpenZip zipBuf) j ∧
            predicate (GetZipItem (OpenZip zipBuf) j).2 = false) ∧
      ((¬ Enumerated (OpenZip zipBuf) k ∧
          unzipSingleFile OpenZip zipBuf dest predicate w =
            some (Except.error (Thrown.wstring_value extractionError),
              ⟨w.files, w.trace ++ [Call.OpenZip zipBuf] ++ enumCalls 0 k ++ [Call.CloseZip]⟩)) ∨
       (Enumerated (OpenZip zipBuf) k ∧ predicate (GetZipItem (OpenZip zipBuf) k).2 = true ∧
          ∃ w', unzipSingleFile OpenZip zipBuf dest predicate w =
            some (if ExtractionOk (OpenZip zipBuf) k then Except.ok ()
                  else Except.error (Thrown.wstring_value extractionError), w') ∧
            w'.trace = w.trace ++ [Call.OpenZip zipBuf] ++ enumCalls 0 k ++
              [Call.UnzipItem k dest, Call.CloseZip] ∧
            (∀ q, q ≠ dest → w'.files q = w.files q) ∧
            (∀ item, (OpenZip zipBuf).items[k]? = some item → item.unzip = ZRESULT.ZR_OK →
              w'.files dest = some item.content))) := by
  obtain ⟨⟨b, w1⟩, hscan⟩ := scanLoop_some (OpenZip zipBuf) dest predicate
    ((OpenZip zipBuf).items.length + 1) 0 (w.call (Call.OpenZip zipBuf)) (by omega) (by omega)
  obtain ⟨k, _, hbefore, hcase⟩ := scanLoop_spec _ _ _ _ _ _ _ _ hscan
  refine ⟨k, fun j hj => hbefore j (Nat.zero_le _) hj, ?_⟩
  rcases hcase with ⟨hne, hb, hw⟩ | ⟨hen, hp, hb, hw⟩
  · left
    refine ⟨hne, ?_⟩
    unfold unzipSingleFile
    simp only [hscan, hb, hw]
    simp [World.call]
  · right
    refine ⟨hen, hp, w1.call Call.CloseZip, ?_, ?_, ?_, ?_⟩
    · rw [UnzipItem_code] at hb
      unfold unzipSingleFile
      simp only [hscan, hb]
      by_cases hok : unzipCode (OpenZip zipBuf) k = ZRESULT.ZR_OK <;> simp [ExtractionOk, hok]
    · rw [hw]
      simp [World.call, UnzipItem_trace]
    · intro q hq
      rw [hw]
      simp only [World.call]
      rw [UnzipItem_files_other _ _ _ _ q hq]
    · intro item hk hok
      rw [hw]
      simp only [World.call]
      exact UnzipItem_ok_files _ _ _ _ item hk hok

theorem mem_enumCalls (c : Call) (first last : Nat) :
    c ∈ enumCalls first last ↔ ∃ j, first ≤ j ∧ j ≤ last ∧ c = Call.GetZipItem j := by
  unfold enumCalls
  simp only [List.mem_map, List.mem_range'_1]
  constructor
  · rintro ⟨j, ⟨h1, h2⟩, rfl⟩
    exact ⟨j, h1, by omega, rfl⟩
  · rintro ⟨j, h1, h2, rfl⟩
    exact ⟨j, ⟨h1, by omega⟩, rfl⟩

theorem countP_isUnzipItem_enumCalls (first last : Nat) :
    (enumCalls first last).countP Call.isUnzipItem = 0 := by
  rw [List.countP_eq_zero]
  intro c hc
  obtain ⟨j, _, _, rfl⟩ := (mem_enumCalls c first last).mp hc
  simp [Call.isUnzipItem]

theorem enumerated_item (zipFile : HZIP) (k : Nat) (h : Enumerated zipFile k) :
    ∃ item, zipFile.items[k]? = some item ∧ (GetZipItem zipFile k).2 = item.zentry := by
  cases hk : zipFile.items[k]? with
  | none =>
    exfalso
    simp [Enumerated, GetZipItem, hk] at h
  | some item =>
    exact ⟨item, rfl, by simp [GetZipItem, hk]⟩

theorem firstMatch_of_scan (zipFile : HZIP) (predicate : ZIPENTRY → Bool) (k : Nat)
    (hbefore : ∀ j, j < k → Enumerated zipFile j ∧ predicate (GetZipItem zipFile j).2 = false)
    (hen : Enumerated zipFile k) (hp : predicate (GetZipItem zipFile k).2 = true) :
    FirstMatch zipFile predicate k := by
  refine ⟨?_, hp, fun j hj => (hbefore j hj).2⟩
  intro j hj
  rcases Nat.lt_or_ge j k with h | h
  · exact (hbefore j h).1
  · have : j = k := by omega
    subst this
    exact hen

theorem firstMatch_unique (zipFile : HZIP) (predicate : ZIPENTRY → Bool) (k k' : Nat)
    (h : FirstMatch zipFile predicate k) (h' : FirstMatch zipFile predicate k') : k = k' := by
  rcases Nat.lt_trichotomy k k' with hlt | heq | hgt
  · have := h'.2.2 k hlt
    rw [h.2.1] at this
    exact absurd this (by simp)
  · exact heq
  · have := h.2.2 k' hgt
    rw [h'.2.1] at this
    exact absurd this (by simp)

theorem no_firstMatch_of_stop (zipFile : HZIP) (predicate : ZIPENTRY → Bool) (k : Nat)
    (hbefore : ∀ j, j < k → Enumerated zipFile j ∧ predicate (GetZipItem zipFile j).2 = false)
    (hne : ¬ Enumerated zipFile k) : ∀ k', ¬ FirstMatch zipFile predicate k' := by
  intro k' h'
  rcases Nat.lt_or_ge k' k with h | h
  · have := (hbefore k' h).2
    rw [h'.2.1] at this
    exact absurd this (by simp)
  · exact hne (h'.1 k h)

theorem unzipSingleFile_calls (OpenZip : List BYTE → HZIP) (zipBuf : List BYTE)
    (dest : wstring) (predicate : ZIPENTRY → Bool) (w : World) :
    ∃ r w' calls, unzipSingleFile OpenZip zipBuf dest predicate w = some (r, w') ∧
      w'.trace = w.trace ++ calls ∧ (∀ c, c ∈ calls → c.isZip = true) ∧
      (r = Except.ok () ∨ r = Except.error (Thrown.wstring_value extractionError)) := by
  obtain ⟨k, _, hcase⟩ := unzipSingleFile_spec OpenZip zipBuf dest predicate w
  rcases hcase with ⟨_, hrun⟩ | ⟨_, _, w', hrun, htrace, _, _⟩
  · refine ⟨_, _, [Call.OpenZip zipBuf] ++ enumCalls 0 k ++ [Call.CloseZip], hrun, ?_, ?_,
      Or.inr rfl⟩
    · simp
    · intro c hc
      simp only [List.mem_append, List.mem_singleton, mem_enumCalls] at hc
      rcases hc with (rfl | ⟨j, _, _, rfl⟩) | rfl <;> rfl
  · refine ⟨_, w', [Call.OpenZip zipBuf] ++ enumCalls 0 k ++
      [Call.UnzipItem k dest, Call.CloseZip], hrun, ?_, ?_, ?_⟩
    · rw [htrace]; simp
    · intro c hc
      simp only [List.mem_append, List.mem_singleton, mem_enumCalls, List.mem_cons,
        List.mem_nil_iff, or_false] at hc
      rcases hc with (rfl | ⟨j, _, _, rfl⟩) | rfl | rfl <;> rfl
    · by_cases hok : ExtractionOk (OpenZip zipBuf) k
      · left; rw [if_pos hok]
      · right; rw [if_neg hok]

/-! ### Facts about the pipeline -/

theorem isZip_other (c : Call) (h : c.isZip = true) :
    c.isDialog = false ∧ c.isMunmap = false ∧ c.isDelete = false ∧ c.isLaunch = false ∧
      c.isFileWrite = false := by
  cases c <;> simp_all [Call.isZip, Call.isDialog, Call.isMunmap, Call.isDelete, Call.isLaunch,
    Call.isFileWrite]

theorem wWinMain_eq (env : Env) (hos : env.IsWindows7SP1OrGreater = true) :
    wWinMain env =
      (tryBlock env (updaterPath env) (packagePath env) (entryWorld env)).map fun r =>
        ((0 : Int), cleanup env r.memAddr (updaterPath env) (packagePath env)
          (match r.thrown with
            | some t => catchClauses t r.world
            | none => r.world)) := by
  unfold wWinMain
  simp only [hos, Bool.not_true, Bool.false_eq_true, if_false]
  have : (((⟨env.files, []⟩ : World).call Call.IsWindows7SP1OrGreater).call
      (Call.get_temp_file_path "exe".toList)).call (Call.get_temp_file_path "nupkg".toList)
      = entryWorld env := rfl
  rw [this]
  unfold updaterPath packagePath
  cases h : tryBlock env (env.get_temp_file_path "exe".toList)
    (env.get_temp_file_path "nupkg".toList) (entryWorld env) <;> rfl

theorem inImage_narrow (image : List BYTE) (offset count : Int)
    (h : InImage image offset count) : InImage image offset (count % 2 ^ 32) := by
  obtain ⟨h1, h2, h3⟩ := h
  have hp : (2 : Int) ^ 32 = 4294967296 := by norm_num
  rw [hp]
  exact ⟨h1, by omega, by omega⟩

theorem not_dialog_of_fixed (c : Call)
    (h : c = Call.get_current_process_path ∨ c = Call.mmap_read ∨ c = Call.header_offset) :
    c.isDialog = false ∧ c.isMunmap = false ∧ c.isDelete = false ∧ c.isLaunch = false := by
  rcases h with h | h | h <;> subst h <;> exact ⟨rfl, rfl, rfl, rfl⟩

/-- What a `try` block that has a result did. -/
theorem tryBlock_spec (env : Env) (u p : wstring) (w : World) (r : TryResult)
    (hrun : tryBlock env u p w = some r) :
    ∃ calls, r.world.trace = w.trace ++ calls ∧
      r.memAddr = env.mmap_read ∧
      ∀ c, c ∈ calls → c.isDialog = false ∧ c.isMunmap = false ∧ c.isDelete = false ∧
        (c.isLaunch = true → c = Call.wexec (commandLine u p env.pCmdLine)) := by
  unfold tryBlock at hrun
  cases hmap : env.mmap_read with
  | none =>
    rw [hmap] at hrun
    simp only [Option.some.injEq] at hrun
    subst hrun
    refine ⟨[Call.get_current_process_path, Call.mmap_read], ?_, rfl, ?_⟩
    · simp [World.call]
    · intro c hc
      simp only [List.mem_cons, List.mem_singleton, List.mem_nil_iff, or_false] at hc
      have := not_dialog_of_fixed c (by tauto)
      simp [this]
  | some image =>
    rw [hmap] at hrun
    simp only at hrun
    by_cases hz : env.header_offset.1 = 0 ∨ env.header_offset.2 = 0
    · rw [if_pos hz] at hrun
      simp only [Option.some.injEq] at hrun
      subst hrun
      refine ⟨[Call.get_current_process_path, Call.mmap_read, Call.header_offset], ?_,
        rfl, ?_⟩
      · simp [World.call]
      · intro c hc
        simp only [List.mem_cons, List.mem_singleton, List.mem_nil_iff, or_false] at hc
        have := not_dialog_of_fixed c hc
        simp [this]
    · rw [if_neg hz] at hrun
      by_cases hin1 : InImage image env.header_offset.1 (env.header_offset.2 % 2 ^ 32)
      · rw [if_neg (not_not_intro hin1)] at hrun
        obtain ⟨res, w1, calls, hunzip, htrace, hzip, hres⟩ := unzipSingleFile_calls env.OpenZip
          (bytesAt image env.header_offset.1 (env.header_offset.2 % 2 ^ 32)) u endsWithSquirrel
          (((w.call Call.get_current_process_path).call Call.mmap_read).call Call.header_offset)
        rw [hunzip] at hrun
        rcases hres with rfl | rfl
        · simp only at hrun
          by_cases hin2 : InImage image env.header_offset.1 env.header_offset.2
          · rw [if_neg (not_not_intro hin2)] at hrun
            have hmem : ∀ c, c ∈ [Call.get_current_process_path, Call.mmap_read,
                Call.header_offset] ++ calls ++
                [Call.ofstream_write p (bytesAt image env.header_offset.1 env.header_offset.2),
                 Call.wexec (commandLine u p env.pCmdLine)] →
                c.isDialog = false ∧ c.isMunmap = false ∧ c.isDelete = false ∧
                (c.isLaunch = true → c = Call.wexec (commandLine u p env.pCmdLine)) := by
              intro c hc
              simp only [List.mem_append, List.mem_cons, List.mem_singleton, List.mem_nil_iff,
                or_false] at hc
              rcases hc with (hc | hc) | rfl | rfl
              · have := not_dialog_of_fixed c hc
                simp [this]
              · have := isZip_other c (hzip c hc)
                simp [this]
              · simp [Call.isDialog, Call.isMunmap, Call.isDelete, Call.isLaunch]
              · simp [Call.isDialog, Call.isMunmap, Call.isDelete, Call.isLaunch]
            have htr : ((ofstream_write env.ofstream p
                (bytesAt image env.header_offset.1 env.header_offset.2) w1).call
                (Call.wexec (commandLine u p env.pCmdLine))).trace =
                w.trace ++ ([Call.get_current_process_path, Call.mmap_read,
                Call.header_offset] ++ calls ++
                [Call.ofstream_write p (bytesAt image env.header_offset.1 env.header_offset.2),
                 Call.wexec (commandLine u p env.pCmdLine)]) := by
              cases env.ofstream <;> simp [World.call, ofstream_write, htrace]
            cases hw : env.wexec with
            | none =>
              rw [hw] at hrun
              simp only [Option.some.injEq] at hrun
              subst hrun
              exact ⟨_, htr, rfl, hmem⟩
            | some t =>
              rw [hw] at hrun
              simp only [Option.some.injEq] at hrun
              subst hrun
              exact ⟨_, htr, rfl, hmem⟩
          · rw [if_pos hin2] at hrun
            cases hrun
        · simp only [Option.some.injEq] at hrun
          subst hrun
          refine ⟨[Call.get_current_process_path, Call.mmap_read, Call.header_offset] ++ calls,
            ?_, rfl, ?_⟩
          · simp [World.call, htrace]
          · intro c hc
            simp only [List.mem_append, List.mem_cons, List.mem_singleton, List.mem_nil_iff,
              or_false] at hc
            rcases hc with hc | hc
            · have := not_dialog_of_fixed c hc
              simp [this]
            · have := isZip_other c (hzip c hc)
              simp [this]
      · rw [if_pos hin1] at hrun
        cases hrun

/-- A run whose marker obeys the data model has a result. -/
theorem tryBlock_defined (env : Env) (u p : wstring) (w : World) (hmarker : MarkerInRange env) :
    ∃ r, tryBlock env u p w = some r := by
  unfold tryBlock
  cases hmap : env.mmap_read with
  | none => exact ⟨_, rfl⟩
  | some image =>
    simp only
    by_cases hz : env.header_offset.1 = 0 ∨ env.header_offset.2 = 0
    · rw [if_pos hz]
      exact ⟨_, rfl⟩
    · rw [if_neg hz]
      have hin2 : InImage image env.header_offset.1 env.header_offset.2 := by
        rcases hmarker image hmap with h | h | h
        · exact absurd (Or.inl h) hz
        · exact absurd (Or.inr h) hz
        · exact h
      rw [if_neg (not_not_intro (inImage_narrow _ _ _ hin2))]
      obtain ⟨res, w1, calls, hunzip, _, _, hres⟩ := unzipSingleFile_calls env.OpenZip
        (bytesAt image env.header_offset.1 (env.header_offset.2 % 2 ^ 32)) u endsWithSquirrel
        (((w.call Call.get_current_process_path).call Call.mmap_read).call Call.header_offset)
      rw [hunzip]
      rcases hres with rfl | rfl
      · simp only
        rw [if_neg (not_not_intro hin2)]
        cases env.wexec <;> exact ⟨_, rfl⟩
      · exact ⟨_, rfl⟩

theorem DeleteFile_trace (env : Env) (path : wstring) (w : World) :
    (DeleteFile env path w).trace = w.trace ++ [Call.DeleteFile path] := by
  unfold DeleteFile
  simp only [World.call]
  split <;> rfl

theorem cleanup_trace (env : Env) (m : Option (List BYTE)) (u p : wstring) (w : World) :
    (cleanup env m u p w).trace =
      w.trace ++ ((if m.isSome then [Call.munmap] else []) ++
        [Call.DeleteFile u, Call.DeleteFile p]) := by
  unfold cleanup
  simp only [DeleteFile_trace]
  cases m <;> simp [World.call]

theorem catchClauses_trace (t : Thrown) (w : World) :
    ∃ msg, (catchClauses t w).trace = w.trace ++ [Call.show_error_dialog msg] := by
  cases t <;> exact ⟨_, rfl⟩

/-- The shape of every run that passes the version check and has a result: the
calls before the `try` block, the calls of the `try` block, at most one dialog,
the clean-up. -/
theorem wWinMain_trace (env : Env) (hos : env.IsWindows7SP1OrGreater = true) (r0 : Int)
    (w : World) (hrun : wWinMain env = some (r0, w)) :
    r0 = 0 ∧ ∃ calls dialogs,
      w.trace = (entryWorld env).trace ++ calls ++ dialogs ++ cleanupCalls env ∧
      (∀ c, c ∈ calls → c.isDialog = false ∧ c.isMunmap = false ∧ c.isDelete = false ∧
        (c.isLaunch = true →
          c = Call.wexec (commandLine (updaterPath env) (packagePath env) env.pCmdLine))) ∧
      (dialogs = [] ∨ ∃ msg, dialogs = [Call.show_error_dialog msg]) := by
  rw [wWinMain_eq env hos] at hrun
  cases htry : tryBlock env (updaterPath env) (packagePath env) (entryWorld env) with
  | none =>
    rw [htry] at hrun
    cases hrun
  | some r =>
    rw [htry] at hrun
    simp only [Option.map_some', Option.some.injEq, Prod.mk.injEq] at hrun
    obtain ⟨h0, hw⟩ := hrun
    obtain ⟨calls, htrace, hmem, hcalls⟩ := tryBlock_spec env _ _ _ r htry
    refine ⟨h0.symm, ?_⟩
    subst hw
    cases hthrown : r.thrown with
    | none =>
      refine ⟨calls, [], ?_, hcalls, Or.inl rfl⟩
      simp only [cleanup_trace, htrace, hmem, cleanupCalls, List.append_nil]
    | some t =>
      obtain ⟨msg, hmsg⟩ := catchClauses_trace t r.world
      refine ⟨calls, [Call.show_error_dialog msg], ?_, hcalls, Or.inr ⟨msg, rfl⟩⟩
      simp only [cleanup_trace, hmsg, htrace, hmem, cleanupCalls]

/-- A run that passes the version check and whose marker obeys the data model
has a result. -/
theorem wWinMain_defined (env : Env) (hos : env.IsWindows7SP1OrGreater = true)
    (hmarker : MarkerInRange env) : ∃ w, wWinMain env = some (0, w) := by
  obtain ⟨r, hr⟩ := tryBlock_defined env (updaterPath env) (packagePath env) (entryWorld env)
    hmarker
  rw [wWinMain_eq env hos, hr]
  exact ⟨_, rfl⟩

theorem commandLine_eq (u p a : wstring) :
    commandLine u p a =
      [dquote] ++ u ++ [dquote] ++ " --setup ".toList ++ [dquote] ++ p ++ [dquote] ++
        " ".toList ++ a := by
  simp [commandLine, dquote]

theorem catchClauses_eq (t : Thrown) (w : World) :
    catchClauses t w = w.call (Call.show_error_dialog (dialogText t)) := by
  cases t <;> rfl

theorem unzipSingleFile_ok_of_match (OpenZip : List BYTE → HZIP) (zipBuf : List BYTE)
    (dest : wstring) (predicate : ZIPENTRY → Bool) (w : World) (k : Nat)
    (hmatch : FirstMatch (OpenZip zipBuf) predicate k) (hok : ExtractionOk (OpenZip zipBuf) k) :
    ∃ w', unzipSingleFile OpenZip zipBuf dest predicate w = some (Except.ok (), w') ∧
      w'.trace = w.trace ++ [Call.OpenZip zipBuf] ++ enumCalls 0 k ++
        [Call.UnzipItem k dest, Call.CloseZip] ∧
      ∀ item, (OpenZip zipBuf).items[k]? = some item → item.unzip = ZRESULT.ZR_OK →
        w'.files dest = some item.content := by
  obtain ⟨k0, hbefore, hcase⟩ := unzipSingleFile_spec OpenZip zipBuf dest predicate w
  rcases hcase with ⟨hne, _⟩ | ⟨hen, hp, w', hrun, htrace, _, hfiles⟩
  · exact absurd hmatch (no_firstMatch_of_stop _ _ _ hbefore hne k)
  · have := firstMatch_unique _ _ _ _ (firstMatch_of_scan _ _ _ hbefore hen hp) hmatch
    subst this
    rw [if_pos hok] at hrun
    exact ⟨w', hrun, htrace, hfiles⟩

/-- No dialog is shown up to the launch when the installer was extracted. -/
theorem no_dialog_before_launch (env : Env) (w1 : World) (zipBuf payload : List BYTE) (k : Nat)
    (htrace1 : w1.trace =
      ((((entryWorld env).call Call.get_current_process_path).call Call.mmap_read).call
        Call.header_offset).trace ++ [Call.OpenZip zipBuf] ++ enumCalls 0 k ++
        [Call.UnzipItem k (updaterPath env), Call.CloseZip]) :
    ∀ c, c ∈ w1.trace ++ [Call.ofstream_write (packagePath env) payload,
        Call.wexec (commandLine (updaterPath env) (packagePath env) env.pCmdLine)] →
      c.isDialog = false := by
  intro c hc
  rw [htrace1] at hc
  simp only [List.mem_append] at hc
  rcases hc with (((hc | hc) | hc) | hc) | hc
  · have h0 : ∀ c, c ∈ ((((entryWorld env).call Call.get_current_process_path).call
        Call.mmap_read).call Call.header_offset).trace → c.isDialog = false := by
      simp [World.call, entryWorld, Call.isDialog]
    exact h0 c hc
  · simp only [List.mem_singleton] at hc
    subst hc; rfl
  · obtain ⟨j, _, _, h⟩ := (mem_enumCalls _ _ _).mp hc
    subst h; rfl
  · have h0 : ∀ c, c ∈ [Call.UnzipItem k (updaterPath env), Call.CloseZip] →
        c.isDialog = false := by
      simp [Call.isDialog]
    exact h0 c hc
  · have h0 : ∀ c, c ∈ [Call.ofstream_write (packagePath env) payload,
        Call.wexec (commandLine (updaterPath env) (packagePath env) env.pCmdLine)] →
        c.isDialog = false := by
      simp [Call.isDialog]
    exact h0 c hc

/-- The `try` block once the installer is extracted: the package is written
and the installer launched, whatever the stream reports. -/
theorem tryBlock_of_extracted (env : Env) (u p : wstring) (w w1 : World) (image : List BYTE)
    (hmap : env.mmap_read = some image)
    (hoff : env.header_offset.1 ≠ 0) (hlen : env.header_offset.2 ≠ 0)
    (hin : InImage image env.header_offset.1 env.header_offset.2)
    (hunzip : unzipSingleFile env.OpenZip
      (bytesAt image env.header_offset.1 (env.header_offset.2 % 2 ^ 32)) u endsWithSquirrel
      (((w.call Call.get_current_process_path).call Call.mmap_read).call Call.header_offset)
      = some (Except.ok (), w1)) :
    tryBlock env u p w = some ⟨env.wexec, some image,
      (ofstream_write env.ofstream p (bytesAt image env.header_offset.1 env.header_offset.2)
        w1).call (Call.wexec (commandLine u p env.pCmdLine))⟩ := by
  unfold tryBlock
  simp only [hmap]
  rw [if_neg (by simp [hoff, hlen]), if_neg (not_not_intro (inImage_narrow _ _ _ hin)), hunzip]
  simp only
  rw [if_neg (not_not_intro hin)]
  cases env.wexec <;> rfl

theorem ofstream_write_trace (outcome : StreamState) (path : wstring) (bytes : List BYTE)
    (w : World) :
    (ofstream_write outcome path bytes w).trace = w.trace ++ [Call.ofstream_write path bytes] := by
  cases outcome <;> rfl

theorem mem_cleanupCalls_not_dialog (env : Env) (c : Call) (h : c ∈ cleanupCalls env) :
    c.isDialog = false := by
  unfold cleanupCalls at h
  simp only [List.mem_append, List.mem_cons, List.mem_singleton, List.mem_nil_iff,
    or_false] at h
  rcases h with h | h | h
  · split at h
    · simp only [List.mem_singleton] at h
      subst h; rfl
    · cases h
  · subst h; rfl
  · subst h; rfl

/-- The whole run once the installer is extracted. -/
theorem wWinMain_of_extracted (env : Env) (w1 : World) (image : List BYTE)
    (hos : env.IsWindows7SP1OrGreater = true)
    (hmap : env.mmap_read = some image)
    (hoff : env.header_offset.1 ≠ 0) (hlen : env.header_offset.2 ≠ 0)
    (hin : InImage image env.header_offset.1 env.header_offset.2)
    (hunzip : unzipSingleFile env.OpenZip
      (bytesAt image env.header_offset.1 (env.header_offset.2 % 2 ^ 32)) (updaterPath env)
      endsWithSquirrel
      ((((entryWorld env).call Call.get_current_process_path).call Call.mmap_read).call
        Call.header_offset) = some (Except.ok (), w1)) :
    ∃ w, wWinMain env = some (0, w) ∧
      w.trace = w1.trace ++
        [Call.ofstream_write (packagePath env)
          (bytesAt image env.header_offset.1 env.header_offset.2),
         Call.wexec (commandLine (updaterPath env) (packagePath env) env.pCmdLine)] ++
        dialogCalls env.wexec ++ cleanupCalls env := by
  rw [wWinMain_eq env hos,
    tryBlock_of_extracted env _ _ _ w1 image hmap hoff hlen hin hunzip]
  simp only [Option.map_some']
  refine ⟨_, rfl, ?_⟩
  rw [cleanup_trace]
  cases env.wexec with
  | none =>
    simp [World.call, ofstream_write_trace, dialogCalls, cleanupCalls, hmap]
  | some t =>
    simp [catchClauses_eq, World.call, ofstream_write_trace, dialogCalls, cleanupCalls, hmap]

/-! ## The claims -/

/-- C1, as amended: when the marker gives a positive offset `off` and a positive
length `len`, the range lies inside the mapped image, the archive the zip
library finds in the buffer it is handed (the bytes at `off`, the length
narrowed to a `DWORD`) has the single entry `Foo.Squirrel.exe`, the two
temporary paths differ, and the mapping, the extraction write and the file
write all succeed, then the `try` block of `wWinMain` throws nothing but what
`util::wexec` itself throws.  At the moment `util::wexec` is called the
installer path holds exactly the bytes of the entry and the package path holds
exactly the `len` payload bytes at `off`; no error dialog is shown before the
launch, and none in the whole run when the launch returns. -/
theorem pipeline_end_to_end (env : Env) (image : List BYTE) (off len : Int) (item : ZipItem)
    (hos : env.IsWindows7SP1OrGreater = true)
    (hmap : env.mmap_read = some image)
    (hmarker : env.header_offset = (off, len))
    (hoff : 0 < off) (hlen : 0 < len) (hrange : off + len ≤ image.length)
    (harchive : env.OpenZip (bytesAt image off (len % 2 ^ 32)) = ⟨[item]⟩)
    (hzr : item.zr = ZRESULT.ZR_OK)
    (hname : item.zentry.name = "Foo.Squirrel.exe".toList)
    (hunzipOk : item.unzip = ZRESULT.ZR_OK)
    (hstream : env.ofstream = StreamState.good)
    (hpaths : updaterPath env ≠ packagePath env) :
    ∃ r, tryBlock env (updaterPath env) (packagePath env) (entryWorld env) = some r ∧
      r.thrown = env.wexec ∧
      r.world.files (updaterPath env) = some item.content ∧
      r.world.files (packagePath env) = some (bytesAt image off len) ∧
      (bytesAt image off len).length = len.toNat ∧
      r.world.trace.getLast? =
        some (Call.wexec (commandLine (updaterPath env) (packagePath env) env.pCmdLine)) ∧
      (∀ c, c ∈ r.world.trace → c.isDialog = false) ∧
      (env.wexec = none →
        ∃ w, wWinMain env = some (0, w) ∧ ∀ c, c ∈ w.trace → c.isDialog = false) := by
  have h1 : env.header_offset.1 = off := by rw [hmarker]
  have h2 : env.header_offset.2 = len := by rw [hmarker]
  have hzip : env.OpenZip (bytesAt image env.header_offset.1 (env.header_offset.2 % 2 ^ 32))
      = ⟨[item]⟩ := by rw [h1, h2, harchive]
  have hitem : (env.OpenZip (bytesAt image env.header_offset.1
      (env.header_offset.2 % 2 ^ 32))).items[0]? = some item := by rw [hzip]; rfl
  have hget : GetZipItem (env.OpenZip (bytesAt image env.header_offset.1
      (env.header_offset.2 % 2 ^ 32))) 0 = (item.zr, item.zentry) := by
    rw [hzip]; rfl
  have hmatch : FirstMatch (env.OpenZip (bytesAt image env.header_offset.1
      (env.header_offset.2 % 2 ^ 32))) endsWithSquirrel 0 := by
    refine ⟨?_, ?_, ?_⟩
    · intro j hj
      have : j = 0 := by omega
      subst this
      left
      rw [hget]
      exact hzr
    · rw [hget]
      show hasEnding item.zentry.name "Squirrel.exe".toList = true
      rw [hname]
      decide
    · intro j hj
      omega
  have hok : ExtractionOk (env.OpenZip (bytesAt image env.header_offset.1
      (env.header_offset.2 % 2 ^ 32))) 0 := by
    show unzipCode _ 0 = ZRESULT.ZR_OK
    rw [hzip]
    exact hunzipOk
  obtain ⟨w1, hunzip, htrace1, hfiles⟩ := unzipSingleFile_ok_of_match env.OpenZip
    (bytesAt image env.header_offset.1 (env.header_offset.2 % 2 ^ 32)) (updaterPath env)
    endsWithSquirrel
    ((((entryWorld env).call Call.get_current_process_path).call Call.mmap_read).call
      Call.header_offset) 0 hmatch hok
  have hne1 : env.header_offset.1 ≠ 0 := by rw [h1]; omega
  have hne2 : env.header_offset.2 ≠ 0 := by rw [h2]; omega
  have hin : InImage image env.header_offset.1 env.header_offset.2 := by
    rw [h1, h2]
    exact ⟨le_of_lt hoff, le_of_lt hlen, hrange⟩
  have htry := tryBlock_of_extracted env (updaterPath env) (packagePath env) (entryWorld env)
    w1 image hmap hne1 hne2 hin hunzip
  rw [h1, h2, hstream] at htry
  refine ⟨_, htry, rfl, ?_, ?_, ?_, ?_, ?_, ?_⟩
  · simp only [World.call, ofstream_write, writeFile, hpaths, if_false]
    exact hfiles item hitem hunzipOk
  · simp [World.call, ofstream_write, writeFile]
  · simp only [bytesAt, List.length_drop, List.length_take]
    omega
  · simp [World.call]
  · intro c hc
    have htr : ((ofstream_write StreamState.good (packagePath env) (bytesAt image off len)
        w1).call (Call.wexec (commandLine (updaterPath env) (packagePath env)
        env.pCmdLine))).trace = w1.trace ++ [Call.ofstream_write (packagePath env)
        (bytesAt image off len), Call.wexec (commandLine (updaterPath env) (packagePath env)
        env.pCmdLine)] := by
      simp [World.call, ofstream_write]
    rw [htr] at hc
    exact no_dialog_before_launch env w1 _ _ 0 htrace1 c hc
  · intro hw
    obtain ⟨w, hrun, htrace⟩ := wWinMain_of_extracted env w1 image hos hmap hne1 hne2 hin hunzip
    refine ⟨w, hrun, ?_⟩
    intro c hc
    rw [htrace, hw] at hc
    simp only [dialogCalls, List.append_nil] at hc
    rcases List.mem_append.mp hc with hc | hc
    · exact no_dialog_before_launch env w1 _ _ 0 htrace1 c hc
    · exact mem_cleanupCalls_not_dialog env c hc

/-- C1, as amended, at `demoEnv`: payload of four bytes at offset 4. -/
theorem pipeline_end_to_end_witness :
    demoEnv.header_offset = (4, 4) ∧ demoEnv.mmap_read = some demoImage ∧
    demoEnv.OpenZip (bytesAt demoImage 4 (4 % 2 ^ 32)) = ⟨[fooEntry]⟩ ∧
    updaterPath demoEnv ≠ packagePath demoEnv ∧
    ∃ r, tryBlock demoEnv (updaterPath demoEnv) (packagePath demoEnv) (entryWorld demoEnv)
        = some r ∧
      r.thrown = demoEnv.wexec ∧
      r.world.files (updaterPath demoEnv) = some fooEntry.content ∧
      r.world.files (packagePath demoEnv) = some (bytesAt demoImage 4 4) ∧
      (bytesAt demoImage 4 4).length = (4 : Int).toNat ∧
      r.world.trace.getLast? =
        some (Call.wexec (commandLine (updaterPath demoEnv) (packagePath demoEnv)
          demoEnv.pCmdLine)) ∧
      (∀ c, c ∈ r.world.trace → c.isDialog = false) ∧
      (demoEnv.wexec = none →
        ∃ w, wWinMain demoEnv = some (0, w) ∧ ∀ c, c ∈ w.trace → c.isDialog = false) :=
  ⟨rfl, rfl, rfl, by decide,
    pipeline_end_to_end demoEnv demoImage 4 4 fooEntry rfl rfl rfl (by decide) (by decide)
      (by decide) rfl rfl rfl rfl rfl (by decide)⟩

/-- C1, the scenario as stated: the marker says offset 0 and the length of the
whole (non-empty) buffer, the archive has the single entry `Foo.Squirrel.exe`,
and mapping, extraction write, file write and launch would all succeed.  The run
nevertheless fails: the guard `packageOffset == 0 || packageLength == 0` throws
"The embedded package was not found", the dialog is shown, and neither file
exists when the `try` block ends (no `UnzipItem`, no write, no `util::wexec`). -/
theorem end_to_end_offset_zero_fails :
    wholeBufferEnv.IsWindows7SP1OrGreater = true ∧
    wholeBufferEnv.mmap_read = some demoImage ∧
    wholeBufferEnv.header_offset = (0, (demoImage.length : Int)) ∧
    demoImage.length ≠ 0 ∧
    wholeBufferEnv.OpenZip (bytesAt demoImage 0 (demoImage.length % 2 ^ 32)) = ⟨[fooEntry]⟩ ∧
    updaterPath wholeBufferEnv ≠ packagePath wholeBufferEnv ∧
    fooEntry.zentry.name = "Foo.Squirrel.exe".toList ∧
    fooEntry.zr = ZRESULT.ZR_OK ∧ fooEntry.unzip = ZRESULT.ZR_OK ∧
    wholeBufferEnv.ofstream = StreamState.good ∧ wholeBufferEnv.wexec = none ∧
    (wWinMain wholeBufferEnv).map (fun r => r.2.trace) =
      some [Call.IsWindows7SP1OrGreater, Call.get_temp_file_path "exe".toList,
        Call.get_temp_file_path "nupkg".toList, Call.get_current_process_path,
        Call.mmap_read, Call.header_offset,
        Call.show_error_dialog (errorLead ++ notFoundError ++ errorTrail),
        Call.munmap, Call.DeleteFile "tmp.exe".toList, Call.DeleteFile "tmp.nupkg".toList] ∧
    (tryBlock wholeBufferEnv (updaterPath wholeBufferEnv) (packagePath wholeBufferEnv)
        (entryWorld wholeBufferEnv)).map
      (fun r => (r.thrown, r.world.files "tmp.exe".toList, r.world.files "tmp.nupkg".toList)) =
      some (some (Thrown.wstring_value notFoundError), none, none) := by
  refine ⟨rfl, rfl, rfl, by decide, rfl, by decide, rfl, rfl, rfl, rfl, rfl, by decide,
    by decide⟩

/-- C2 at the failing input: the package file cannot be opened.  Source line 85
writes through a temporary `std::ofstream` and never looks at its state, so
nothing is persisted (the package path holds no file when the `try` block
ends), yet nothing is thrown, no dialog is shown and `util::wexec` is called
with the package path. -/
theorem persist_failure_still_launches :
    streamFailEnv.ofstream = StreamState.open_failed ∧
    (wWinMain streamFailEnv).map (fun r => r.2.trace) =
      some [Call.IsWindows7SP1OrGreater, Call.get_temp_file_path "exe".toList,
        Call.get_temp_file_path "nupkg".toList, Call.get_current_process_path,
        Call.mmap_read, Call.header_offset, Call.OpenZip [0x50, 0x4B, 0x05, 0x06],
        Call.GetZipItem 0, Call.UnzipItem 0 "tmp.exe".toList, Call.CloseZip,
        Call.ofstream_write "tmp.nupkg".toList [0x50, 0x4B, 0x05, 0x06],
        Call.wexec (commandLine "tmp.exe".toList "tmp.nupkg".toList "--silent".toList),
        Call.munmap, Call.DeleteFile "tmp.exe".toList, Call.DeleteFile "tmp.nupkg".toList] ∧
    (tryBlock streamFailEnv (updaterPath streamFailEnv) (packagePath streamFailEnv)
        (entryWorld streamFailEnv)).map
      (fun r => (r.thrown, r.world.files "tmp.nupkg".toList)) = some (none, none) := by
  refine ⟨rfl, by decide, by decide⟩

/-- C3 at the failing input: `util::mmap_read` returns the null pointer.  Source
line 68 throws a pointer (`throw new wstring(...)`), which only `catch (...)`
accepts, so the one dialog of the run is the unknown-error text and not the
fixed lead, "Unable to map executable to memory" and the fixed trail. -/
theorem mapping_failure_shown_as_unknown :
    mapFailEnv.IsWindows7SP1OrGreater = true ∧ mapFailEnv.mmap_read = none ∧
    (wWinMain mapFailEnv).map (fun r => r.2.trace) =
      some [Call.IsWindows7SP1OrGreater, Call.get_temp_file_path "exe".toList,
        Call.get_temp_file_path "nupkg".toList, Call.get_current_process_path,
        Call.mmap_read, Call.show_error_dialog unknownError,
        Call.DeleteFile "tmp.exe".toList, Call.DeleteFile "tmp.nupkg".toList] ∧
    unknownError ≠ errorLead ++ mapError ++ errorTrail := by
  refine ⟨rfl, rfl, by decide, by decide⟩

/-- C4: when the mapping succeeds and the marker reports offset 0 and length 0,
the run shows the payload-not-found dialog (the fixed lead, "The embedded
package was not found", the fixed trail) and then cleans up; it makes no call
to the zip library, no write of the package file and no call to
`util::wexec`. -/
theorem wWinMain_marker_zero (env : Env) (image : List BYTE)
    (hos : env.IsWindows7SP1OrGreater = true) (hmap : env.mmap_read = some image)
    (hmarker : env.header_offset = (0, 0)) :
    ∃ w, wWinMain env = some (0, w) ∧
      w.trace = [Call.IsWindows7SP1OrGreater, Call.get_temp_file_path "exe".toList,
        Call.get_temp_file_path "nupkg".toList, Call.get_current_process_path,
        Call.mmap_read, Call.header_offset,
        Call.show_error_dialog (errorLead ++ notFoundError ++ errorTrail),
        Call.munmap, Call.DeleteFile (updaterPath env), Call.DeleteFile (packagePath env)] ∧
      ∀ c, c ∈ w.trace → c.isZip = false ∧ c.isFileWrite = false ∧ c.isLaunch = false := by
  have htry : tryBlock env (updaterPath env) (packagePath env) (entryWorld env) =
      some ⟨some (Thrown.wstring_value notFoundError), some image,
        (((entryWorld env).call Call.get_current_process_path).call Call.mmap_read).call
          Call.header_offset⟩ := by
    unfold tryBlock
    simp [hmap, hmarker]
  have htrace : (cleanup env (some image) (updaterPath env) (packagePath env)
      (catchClauses (Thrown.wstring_value notFoundError)
        ((((entryWorld env).call Call.get_current_process_path).call Call.mmap_read).call
          Call.header_offset))).trace =
      [Call.IsWindows7SP1OrGreater, Call.get_temp_file_path "exe".toList,
        Call.get_temp_file_path "nupkg".toList, Call.get_current_process_path,
        Call.mmap_read, Call.header_offset,
        Call.show_error_dialog (errorLead ++ notFoundError ++ errorTrail),
        Call.munmap, Call.DeleteFile (updaterPath env), Call.DeleteFile (packagePath env)] := by
    rw [cleanup_trace]
    rfl
  rw [wWinMain_eq env hos, htry]
  refine ⟨_, rfl, htrace, ?_⟩
  intro c hc
  rw [htrace] at hc
  simp only [List.mem_cons, List.mem_singleton, List.mem_nil_iff, or_false] at hc
  rcases hc with h | h | h | h | h | h | h | h | h | h <;> subst h <;>
    exact ⟨rfl, rfl, rfl⟩

/-- C4 at `zeroMarkerEnv`. -/
theorem wWinMain_marker_zero_witness :
    zeroMarkerEnv.IsWindows7SP1OrGreater = true ∧
    zeroMarkerEnv.mmap_read = some demoImage ∧
    zeroMarkerEnv.header_offset = (0, 0) ∧
    ∃ w, wWinMain zeroMarkerEnv = some (0, w) ∧
      w.trace = [Call.IsWindows7SP1OrGreater, Call.get_temp_file_path "exe".toList,
        Call.get_temp_file_path "nupkg".toList, Call.get_current_process_path,
        Call.mmap_read, Call.header_offset,
        Call.show_error_dialog (errorLead ++ notFoundError ++ errorTrail),
        Call.munmap, Call.DeleteFile (updaterPath zeroMarkerEnv),
        Call.DeleteFile (packagePath zeroMarkerEnv)] ∧
      ∀ c, c ∈ w.trace → c.isZip = false ∧ c.isFileWrite = false ∧ c.isLaunch = false :=
  ⟨rfl, rfl, rfl, wWinMain_marker_zero zeroMarkerEnv demoImage rfl rfl rfl⟩

/-- C5, as amended: every run that passes the version check and whose marker
obeys the data model (when the image is mapped and both fields are non-zero,
the range lies inside the image) ends, whatever failed before, with the
clean-up calls: `util::munmap` exactly when the mapping returned a buffer, then
`DeleteFile` on the installer path, then `DeleteFile` on the package path.
Nothing before them (the forward steps and the dialog, if any) is a
`util::munmap` or a `DeleteFile`, so the run holds one `util::munmap` if and
only if the mapping was non-null and exactly two `DeleteFile` calls; this holds
for every result the deletions may have. -/
theorem wWinMain_cleanup_once (env : Env) (hos : env.IsWindows7SP1OrGreater = true)
    (hmarker : MarkerInRange env) :
    ∃ w forward, wWinMain env = some (0, w) ∧
      w.trace = forward ++
        ((if env.mmap_read.isSome then [Call.munmap] else []) ++
          [Call.DeleteFile (updaterPath env), Call.DeleteFile (packagePath env)]) ∧
      (∀ c, c ∈ forward → c.isMunmap = false ∧ c.isDelete = false) ∧
      w.trace.countP Call.isMunmap = (if env.mmap_read.isSome then 1 else 0) ∧
      w.trace.countP Call.isDelete = 2 := by
  obtain ⟨w, hrun⟩ := wWinMain_defined env hos hmarker
  obtain ⟨_, calls, dialogs, htrace, hcalls, hdialogs⟩ := wWinMain_trace env hos 0 w hrun
  have hfwd : ∀ c, c ∈ (entryWorld env).trace ++ calls ++ dialogs →
      c.isMunmap = false ∧ c.isDelete = false := by
    intro c hc
    simp only [List.mem_append] at hc
    rcases hc with (hc | hc) | hc
    · simp only [entryWorld, List.mem_cons, List.mem_singleton, List.mem_nil_iff,
        or_false] at hc
      rcases hc with rfl | rfl | rfl <;> exact ⟨rfl, rfl⟩
    · exact ⟨(hcalls c hc).2.1, (hcalls c hc).2.2.1⟩
    · rcases hdialogs with h | ⟨msg, h⟩
      · rw [h] at hc; cases hc
      · rw [h] at hc
        simp only [List.mem_singleton] at hc
        subst hc
        exact ⟨rfl, rfl⟩
  have h1 : ((entryWorld env).trace ++ calls ++ dialogs).countP Call.isMunmap = 0 := by
    rw [List.countP_eq_zero]
    intro c hc
    simp [(hfwd c hc).1]
  have h2 : ((entryWorld env).trace ++ calls ++ dialogs).countP Call.isDelete = 0 := by
    rw [List.countP_eq_zero]
    intro c hc
    simp [(hfwd c hc).2]
  refine ⟨w, (entryWorld env).trace ++ calls ++ dialogs, hrun, ?_, hfwd, ?_, ?_⟩
  · rw [htrace]; rfl
  · rw [htrace, List.countP_append, h1, cleanupCalls]
    cases env.mmap_read <;> simp [List.countP_cons, Call.isMunmap]
  · rw [htrace, List.countP_append, h2, cleanupCalls]
    cases env.mmap_read <;> simp [List.countP_cons, Call.isDelete]

/-- C5, as amended, at `noInstallerEnv`: the mapping succeeds, the extraction
fails, the dialog is shown, and the run ends with `util::munmap` and the two
`DeleteFile` calls. -/
theorem wWinMain_cleanup_once_witness :
    noInstallerEnv.IsWindows7SP1OrGreater = true ∧
    InImage demoImage noInstallerEnv.header_offset.1 noInstallerEnv.header_offset.2 ∧
    (∃ w forward, wWinMain noInstallerEnv = some (0, w) ∧
      w.trace = forward ++
        ((if noInstallerEnv.mmap_read.isSome then [Call.munmap] else []) ++
          [Call.DeleteFile (updaterPath noInstallerEnv),
           Call.DeleteFile (packagePath noInstallerEnv)]) ∧
      (∀ c, c ∈ forward → c.isMunmap = false ∧ c.isDelete = false) ∧
      w.trace.countP Call.isMunmap = (if noInstallerEnv.mmap_read.isSome then 1 else 0) ∧
      w.trace.countP Call.isDelete = 2) ∧
    (wWinMain noInstallerEnv).map (fun r => r.2.trace) =
      some [Call.IsWindows7SP1OrGreater, Call.get_temp_file_path "exe".toList,
        Call.get_temp_file_path "nupkg".toList, Call.get_current_process_path,
        Call.mmap_read, Call.header_offset, Call.OpenZip [0x50, 0x4B, 0x05, 0x06],
        Call.GetZipItem 0, Call.GetZipItem 1, Call.CloseZip,
        Call.show_error_dialog (errorLead ++ extractionError ++ errorTrail),
        Call.munmap, Call.DeleteFile "tmp.exe".toList, Call.DeleteFile "tmp.nupkg".toList] := by
  refine ⟨rfl, by decide, wWinMain_cleanup_once noInstallerEnv rfl ?_, by decide⟩
  intro image himage
  cases himage
  exact Or.inr (Or.inr (by decide))

/-- C5, as stated, fails: the run passes the version check and the mapping
succeeds, but the marker points four bytes before the mapping.  Both fields are
non-zero, so the guard of line 74 lets it pass and line 82 hands `OpenZip` a
buffer outside the image: the run reads memory that is not the image and has no
defined result, so it is not a run that ends with the clean-up calls. -/
theorem stray_marker_no_cleanup :
    strayMarkerEnv.IsWindows7SP1OrGreater = true ∧
    strayMarkerEnv.mmap_read = some demoImage ∧
    strayMarkerEnv.header_offset = (-4, 4) ∧
    ¬ InImage demoImage (-4) (4 % 2 ^ 32) ∧
    (wWinMain strayMarkerEnv).isNone = true ∧
    ¬ ∃ w forward, wWinMain strayMarkerEnv = some (0, w) ∧
      w.trace = forward ++
        ((if strayMarkerEnv.mmap_read.isSome then [Call.munmap] else []) ++
          [Call.DeleteFile (updaterPath strayMarkerEnv),
           Call.DeleteFile (packagePath strayMarkerEnv)]) := by
  have hnone : wWinMain strayMarkerEnv = none := rfl
  refine ⟨rfl, rfl, rfl, by decide, by rw [hnone]; rfl, ?_⟩
  rintro ⟨w, forward, hrun, _⟩
  rw [hnone] at hrun
  cases hrun

/-- C7: `unzipSingleFile` always returns, either normally or by throwing
"Unable to extract embedded package (predicate not found)."; it throws exactly
when the scan finds no entry that satisfies the predicate, or when `UnzipItem`
for the first such entry does not return `ZR_OK`.  When no entry of the archive
satisfies the predicate it throws, never calls `UnzipItem` and leaves every
file as it was. -/
theorem unzipSingleFile_fails_iff (OpenZip : List BYTE → HZIP) (zipBuf : List BYTE)
    (dest : wstring) (predicate : ZIPENTRY → Bool) (w : World) :
    ∃ r w' calls, unzipSingleFile OpenZip zipBuf dest predicate w = some (r, w') ∧
      w'.trace = w.trace ++ calls ∧
      (r = Except.ok () ∨ r = Except.error (Thrown.wstring_value extractionError)) ∧
      (r = Except.error (Thrown.wstring_value extractionError) ↔
        ((∀ k, ¬ FirstMatch (OpenZip zipBuf) predicate k) ∨
         ∃ k, FirstMatch (OpenZip zipBuf) predicate k ∧ ¬ ExtractionOk (OpenZip zipBuf) k)) ∧
      ((∀ item, item ∈ (OpenZip zipBuf).items → predicate item.zentry = false) →
        r = Except.error (Thrown.wstring_value extractionError) ∧
        calls.countP Call.isUnzipItem = 0 ∧ w'.files = w.files) := by
  obtain ⟨k, hbefore, hcase⟩ := unzipSingleFile_spec OpenZip zipBuf dest predicate w
  rcases hcase with ⟨hne, hrun⟩ | ⟨hen, hp, w', hrun, htrace, _, _⟩
  · refine ⟨_, _, [Call.OpenZip zipBuf] ++ enumCalls 0 k ++ [Call.CloseZip], hrun, ?_,
      Or.inr rfl, ?_, ?_⟩
    · simp
    · simp only [true_iff]
      exact Or.inl (no_firstMatch_of_stop _ _ _ hbefore hne)
    · intro _
      refine ⟨rfl, ?_, rfl⟩
      simp [List.countP_append, countP_isUnzipItem_enumCalls, List.countP_cons, Call.isUnzipItem]
  · have hfm := firstMatch_of_scan _ _ _ hbefore hen hp
    refine ⟨_, w', [Call.OpenZip zipBuf] ++ enumCalls 0 k ++
      [Call.UnzipItem k dest, Call.CloseZip], hrun, ?_, ?_, ?_, ?_⟩
    · rw [htrace]; simp
    · by_cases hok : ExtractionOk (OpenZip zipBuf) k
      · left; rw [if_pos hok]
      · right; rw [if_neg hok]
    · by_cases hok : ExtractionOk (OpenZip zipBuf) k
      · rw [if_pos hok]
        constructor
        · intro h; cases h
        · rintro (h | ⟨k', hk', hnok⟩)
          · exact absurd hfm (h k)
          · have := firstMatch_unique _ _ _ _ hfm hk'
            subst this
            exact absurd hok hnok
      · rw [if_neg hok]
        simp only [true_iff]
        exact Or.inr ⟨k, hfm, hok⟩
    · intro hnone
      exfalso
      obtain ⟨item, hitem, hz⟩ := enumerated_item _ _ hen
      have hmem : item ∈ (OpenZip zipBuf).items := List.getElem?_mem hitem
      have := hnone item hmem
      rw [hz, this] at hp
      exact absurd hp (by simp)

/-- C7 at `noMatch`, an archive without a matching entry. -/
theorem unzipSingleFile_fails_iff_witness :
    (∀ item, item ∈ noMatch.items → endsWithSquirrel item.zentry = false) ∧
    (∃ r w' calls, unzipSingleFile (fun _ => noMatch) [] "tmp.exe".toList endsWithSquirrel
        emptyWorld = some (r, w') ∧
      w'.trace = emptyWorld.trace ++ calls ∧
      r = Except.error (Thrown.wstring_value extractionError) ∧
      calls.countP Call.isUnzipItem = 0 ∧ w'.files = emptyWorld.files) ∧
    (unzipSingleFile (fun _ => noMatch) [] "tmp.exe".toList endsWithSquirrel
        emptyWorld).map (fun r => r.2.trace) =
      some [Call.OpenZip [], Call.GetZipItem 0, Call.GetZipItem 1, Call.GetZipItem 2,
        Call.CloseZip] := by
  have hnone : ∀ item, item ∈ noMatch.items → endsWithSquirrel item.zentry = false := by
    intro item h
    simp only [noMatch, List.mem_cons, List.mem_singleton, List.mem_nil_iff, or_false] at h
    rcases h with h | h <;> subst h <;> decide
  obtain ⟨r, w', calls, hrun, htrace, _, _, hzero⟩ :=
    unzipSingleFile_fails_iff (fun _ => noMatch) [] "tmp.exe".toList endsWithSquirrel emptyWorld
  obtain ⟨hr, hcount, hfiles⟩ := hzero hnone
  exact ⟨hnone, ⟨r, w', calls, hrun, htrace, hr, hcount, hfiles⟩, by decide⟩

/-- C8, as amended: when exactly one entry of the archive has a name that ends
in `Squirrel.exe`, the scan reaches it (`GetZipItem` answers `ZR_OK` or
`ZR_MORE` for every index up to it) and `UnzipItem` returns `ZR_OK` for it, then
`unzipSingleFile` with the predicate `endsWithSquirrel` returns normally and
the destination file holds the content of that entry. -/
theorem unzipSingleFile_single_match (OpenZip : List BYTE → HZIP) (zipBuf : List BYTE)
    (dest : wstring) (w : World) (k : Nat) (item : ZipItem)
    (hk : (OpenZip zipBuf).items[k]? = some item)
    (hname : hasEnding item.zentry.name "Squirrel.exe".toList = true)
    (honly : ∀ j other, (OpenZip zipBuf).items[j]? = some other → j ≠ k →
      hasEnding other.zentry.name "Squirrel.exe".toList = false)
    (henum : ∀ j, j ≤ k → Enumerated (OpenZip zipBuf) j)
    (hok : item.unzip = ZRESULT.ZR_OK) :
    ∃ w', unzipSingleFile OpenZip zipBuf dest endsWithSquirrel w = some (Except.ok (), w') ∧
      w'.files dest = some item.content := by
  obtain ⟨k0, hbefore, hcase⟩ := unzipSingleFile_spec OpenZip zipBuf dest endsWithSquirrel w
  have hpk : endsWithSquirrel (GetZipItem (OpenZip zipBuf) k).2 = true := by
    have hz : (GetZipItem (OpenZip zipBuf) k).2 = item.zentry := by simp [GetZipItem, hk]
    rw [hz]
    exact hname
  have hk0 : k0 = k := by
    rcases Nat.lt_trichotomy k0 k with hlt | heq | hgt
    · exfalso
      rcases hcase with ⟨hne, _⟩ | ⟨hen, hp, _⟩
      · exact hne (henum k0 (by omega))
      · obtain ⟨other, hother, hz⟩ := enumerated_item _ _ hen
        have := honly k0 other hother (by omega)
        rw [hz] at hp
        simp only [endsWithSquirrel] at hp
        rw [this] at hp
        exact absurd hp (by simp)
    · exact heq
    · exfalso
      have := (hbefore k hgt).2
      rw [hpk] at this
      exact absurd this (by simp)
  subst hk0
  rcases hcase with ⟨hne, _⟩ | ⟨_, _, w', hrun, _, _, hfiles⟩
  · exact absurd (henum k0 (le_refl _)) hne
  · have hex : ExtractionOk (OpenZip zipBuf) k0 := by
      simp [ExtractionOk, unzipCode, hk, hok]
    rw [if_pos hex] at hrun
    exact ⟨w', hrun, hfiles item hk hok⟩

/-- C8, as amended, at `oneMatch`. -/
theorem unzipSingleFile_single_match_witness :
    oneMatch.items[1]? = some fooEntry ∧
    hasEnding fooEntry.zentry.name "Squirrel.exe".toList = true ∧
    fooEntry.unzip = ZRESULT.ZR_OK ∧
    ∃ w', unzipSingleFile (fun _ => oneMatch) [] "tmp.exe".toList endsWithSquirrel emptyWorld
        = some (Except.ok (), w') ∧
      w'.files "tmp.exe".toList = some fooEntry.content := by
  refine ⟨rfl, by decide, rfl, ?_⟩
  refine unzipSingleFile_single_match (fun _ => oneMatch) [] "tmp.exe".toList emptyWorld 1
    fooEntry rfl (by decide) ?_ ?_ rfl
  · intro j other h hj
    match j, h, hj with
    | 0, h, _ =>
      have : other = ⟨ZRESULT.ZR_OK, ⟨0, "readme.txt".toList⟩, [0x68, 0x69], ZRESULT.ZR_OK,
          none⟩ := by
        simp only [oneMatch, List.getElem?_cons_zero, Option.some.injEq] at h
        exact h.symm
      subst this
      decide
    | 1, _, hj => exact absurd rfl hj
    | j + 2, h, _ => simp [oneMatch] at h
  · intro j hj
    match j, hj with
    | 0, _ => exact Or.inl rfl
    | 1, _ => exact Or.inl rfl
    | j + 2, hj => omega

/-- C8, as stated, fails in two ways.  In both archives exactly one entry has a
name that ends in `Squirrel.exe`.  In the first, `UnzipItem` cannot write the
destination: `unzipSingleFile` throws and the destination file does not exist.
In the second, `GetZipItem` reports an error for the slot before that entry:
the scan stops there and `unzipSingleFile` throws without any `UnzipItem`. -/
theorem single_match_write_failure :
    ([unwritableEntry].filter (fun i => endsWithSquirrel i.zentry)).length = 1 ∧
    unwritableEntry.zr = ZRESULT.ZR_OK ∧
    (unzipSingleFile (fun _ => ⟨[unwritableEntry]⟩) [] "tmp.exe".toList endsWithSquirrel
        emptyWorld).map
      (fun r => ((match r.1 with
          | Except.ok _ => none
          | Except.error t => some t), r.2.trace, r.2.files "tmp.exe".toList)) =
      some (some (Thrown.wstring_value extractionError),
        [Call.OpenZip [], Call.GetZipItem 0, Call.UnzipItem 0 "tmp.exe".toList, Call.CloseZip],
        none) ∧
    (unreadableSlot.items.filter (fun i => endsWithSquirrel i.zentry)).length = 1 ∧
    (unzipSingleFile (fun _ => unreadableSlot) [] "tmp.exe".toList endsWithSquirrel
        emptyWorld).map
      (fun r => ((match r.1 with
          | Except.ok _ => none
          | Except.error t => some t), r.2.trace, r.2.files "tmp.exe".toList)) =
      some (some (Thrown.wstring_value extractionError),
        [Call.OpenZip [], Call.GetZipItem 0, Call.CloseZip], none) := by
  refine ⟨by decide, rfl, by decide, by decide, by decide⟩

/-- C9: every command line a run passes to `util::wexec` is a double quote, the
installer path, a double quote, the text ` --setup `, a double quote, the
package path, a double quote, one space and the argument string of the process;
so the argument string is its unchanged tail. -/
theorem wexec_command_line (env : Env) (r : Int) (w : World) (cmd : wstring)
    (hrun : wWinMain env = some (r, w)) (hc : Call.wexec cmd ∈ w.trace) :
    cmd = [dquote] ++ updaterPath env ++ [dquote] ++ " --setup ".toList ++ [dquote] ++
        packagePath env ++ [dquote] ++ " ".toList ++ env.pCmdLine ∧
      ∃ front, cmd = front ++ env.pCmdLine := by
  have key : cmd = commandLine (updaterPath env) (packagePath env) env.pCmdLine := by
    cases hos : env.IsWindows7SP1OrGreater with
    | false =>
      unfold wWinMain at hrun
      simp only [hos, Bool.not_false, if_true, Option.some.injEq, Prod.mk.injEq] at hrun
      rw [← hrun.2] at hc
      simp [World.call] at hc
    | true =>
      obtain ⟨_, calls, dialogs, htrace, hcalls, hdialogs⟩ := wWinMain_trace env hos r w hrun
      rw [htrace] at hc
      simp only [List.mem_append] at hc
      rcases hc with ((hc | hc) | hc) | hc
      · simp [entryWorld] at hc
      · have := (hcalls _ hc).2.2.2 rfl
        exact Call.wexec.inj this
      · rcases hdialogs with h | ⟨msg, h⟩ <;> rw [h] at hc <;> simp at hc
      · unfold cleanupCalls at hc
        cases env.mmap_read <;> simp at hc
  rw [key]
  exact ⟨commandLine_eq _ _ _, ⟨_, commandLine_eq _ _ _⟩⟩

/-- C9 at `demoEnv`, started with the arguments `--silent`. -/
theorem wexec_command_line_witness :
    wWinMain demoEnv = some (demoRun.1, demoRun.2) ∧
    Call.wexec demoCmd ∈ demoRun.2.trace ∧
    demoCmd = [dquote] ++ updaterPath demoEnv ++ [dquote] ++ " --setup ".toList ++ [dquote] ++
        packagePath demoEnv ++ [dquote] ++ " ".toList ++ demoEnv.pCmdLine ∧
    ∃ front, demoCmd = front ++ demoEnv.pCmdLine :=
  ⟨rfl, by decide, wexec_command_line demoEnv demoRun.1 demoRun.2 demoCmd rfl (by decide)⟩

/-- C10: `hasEnding s e` is true exactly when `s` is some sequence followed by
`e`, compared character by character; it is false when `e` is longer than `s`,
true when both are equal, and true for every `s` when `e` is empty. -/
theorem hasEnding_iff_ends_with (s e : wstring) :
    (hasEnding s e = true ↔ ∃ p : wstring, s = p ++ e) ∧
    (s.length < e.length → hasEnding s e = false) ∧
    hasEnding e e = true ∧ hasEnding s [] = true := by
  refine ⟨hasEnding_eq_true_iff s e, ?_, ?_, ?_⟩
  · intro h
    unfold hasEnding
    rw [if_neg (by omega)]
  · exact (hasEnding_eq_true_iff e e).mpr ⟨[], rfl⟩
  · exact (hasEnding_eq_true_iff s []).mpr ⟨s, by simp⟩

/-- C10 on three names: the suffix is found, the comparison is case-sensitive,
and a longer ending never matches. -/
theorem hasEnding_examples :
    hasEnding "Foo.Squirrel.exe".toList "Squirrel.exe".toList = true ∧
    hasEnding "Foo.squirrel.exe".toList "Squirrel.exe".toList = false ∧
    hasEnding "exe".toList "Squirrel.exe".toList = false :=
  ⟨(hasEnding_iff_ends_with _ _).1.mpr ⟨"Foo.".toList, rfl⟩, by decide,
    (hasEnding_iff_ends_with _ _).2.1 (by decide)⟩

end Setup
